import Mathlib

/-!
Shallow embedding of the EMG signal-conditioning firmware
(`arduino_emg_code.ino`, 4-channel drone variant, plus the 2-channel
crosshair and 1-channel vertical variants).  Floating-point state is
modelled with exact rationals; the square-root compression of the
crosshair/vertical threshold variants is modelled over the reals.
-/

/-! ## Configuration constants (`#define`s of arduino_emg_code.ino) -/

def SAMPLE_RATE : ℕ := 500

def BUFFER_SIZE : ℕ := 128

def MIN_SNR : ℚ := 3

def CALIBRATION_SAMPLES : ℕ := 1000

def BASELINE_ALPHA : ℚ := 0.95

def DYNAMIC_THRESHOLD_MULTIPLIER : ℚ := 2.5

/-! ## Envelope detector: circular buffer with running sum

The C state per channel is an `int buffer[BUFFER_SIZE]`, an `int index`
and a `float sum`.  A push (`getThrottleEnvelope` and its per-channel
twins) evicts `buffer[index]` from the running sum, stores the new
rectified sample, advances the index modulo the buffer size and returns
`(sum / BUFFER_SIZE) * gain`. -/

structure EnvState where
  buf : List ℤ
  idx : ℕ
  sum : ℚ
deriving DecidableEq

/-- One envelope push, the shared body of `getThrottleEnvelope`,
`getYawEnvelope`, `getPitchEnvelope`, `getRollEnvelope` (B = 128,
gain = 2.0), `getLeftRightEnvelope`/`getUpDownEnvelope` (B = 64,
gain = 3.0) and `getEnvelope` (B = 64, gain = 2.5). -/
def envPush (B : ℕ) (gain : ℚ) (s : EnvState) (abs_emg : ℤ) : EnvState × ℚ :=
  let sum2 : ℚ := s.sum - (s.buf.getD s.idx 0 : ℤ) + (abs_emg : ℤ)
  (⟨s.buf.set s.idx abs_emg, (s.idx + 1) % B, sum2⟩, sum2 / (B : ℚ) * gain)

/-- `float getThrottleEnvelope(int abs_emg)` of arduino_emg_code.ino. -/
def getThrottleEnvelope (s : EnvState) (abs_emg : ℤ) : EnvState × ℚ :=
  envPush BUFFER_SIZE 2 s abs_emg

/-- `float getYawEnvelope(int abs_emg)` of arduino_emg_code.ino. -/
def getYawEnvelope (s : EnvState) (abs_emg : ℤ) : EnvState × ℚ :=
  envPush BUFFER_SIZE 2 s abs_emg

/-- `float getPitchEnvelope(int abs_emg)` of arduino_emg_code.ino. -/
def getPitchEnvelope (s : EnvState) (abs_emg : ℤ) : EnvState × ℚ :=
  envPush BUFFER_SIZE 2 s abs_emg

/-- `float getRollEnvelope(int abs_emg)` of arduino_emg_code.ino. -/
def getRollEnvelope (s : EnvState) (abs_emg : ℤ) : EnvState × ℚ :=
  envPush BUFFER_SIZE 2 s abs_emg

/-- `float getLeftRightEnvelope(int abs_emg)` of the 2-channel crosshair
variant: BUFFER_SIZE 64, extra amplification 3.0. -/
def getLeftRightEnvelope (s : EnvState) (abs_emg : ℤ) : EnvState × ℚ :=
  envPush 64 3 s abs_emg

/-- `float getEnvelope(int abs_emg)` of the 1-channel vertical variant:
BUFFER_SIZE 64, gain 2.5. -/
def getEnvelope (s : EnvState) (abs_emg : ℤ) : EnvState × ℚ :=
  envPush 64 (5/2) s abs_emg

/-- The all-zero buffer state produced by `setup()`. -/
def envInit (B : ℕ) : EnvState :=
  ⟨List.replicate B 0, 0, 0⟩

/-- Iterate envelope pushes over a sample sequence, keeping the state. -/
def pushAll (B : ℕ) (gain : ℚ) (s : EnvState) (vs : List ℤ) : EnvState :=
  vs.foldl (fun t v => (envPush B gain t v).1) s

/-- The pushed history together with the initial zero content of the
buffer: after `vs.length` pushes, the live window is the last `B`
entries of this list. -/
def paddedHistory (B : ℕ) (vs : List ℤ) : List ℤ :=
  List.replicate B 0 ++ vs

/-! ### List helper lemmas -/

lemma getD_append_length (A C : List ℤ) (d : ℤ) :
    (A ++ C).getD A.length d = C.getD 0 d := by
  induction A with
  | nil => rfl
  | cons a A ih =>
    simp only [List.cons_append, List.length_cons, List.getD_cons_succ]
    exact ih

lemma getD_append_of_length (A C : List ℤ) (i : ℕ) (d : ℤ) (h : A.length = i) :
    (A ++ C).getD i d = C.getD 0 d := by
  subst h
  exact getD_append_length A C d

lemma set_append_length (A C : List ℤ) (v : ℤ) :
    (A ++ C).set A.length v = A ++ C.set 0 v := by
  induction A with
  | nil => rfl
  | cons a A ih =>
    simp only [List.cons_append, List.length_cons, List.set_cons_succ]
    rw [ih]

lemma set_append_of_length (A C : List ℤ) (i : ℕ) (v : ℤ) (h : A.length = i) :
    (A ++ C).set i v = A ++ C.set 0 v := by
  subst h
  exact set_append_length A C v

lemma sum_set_of_lt (l : List ℤ) (i : ℕ) (v : ℤ) (h : i < l.length) :
    (l.set i v).sum = l.sum - l.getD i 0 + v := by
  induction l generalizing i with
  | nil => simp at h
  | cons a l ih =>
    cases i with
    | zero => simp [List.set]; ring
    | succ n =>
      have hn : n < l.length := by simpa using h
      simp only [List.set, List.sum_cons, List.getD_cons_succ, ih n hn]
      ring

lemma getD_set_self (l : List ℤ) (i : ℕ) (v : ℤ) (h : i < l.length) :
    (l.set i v).getD i 0 = v := by
  induction l generalizing i with
  | nil => simp at h
  | cons a l ih =>
    cases i with
    | zero => rfl
    | succ n =>
      have hn : n < l.length := by simpa using h
      simpa [List.set] using ih n hn

lemma getD_set_ne (l : List ℤ) (i j : ℕ) (v : ℤ) (h : i ≠ j) :
    (l.set i v).getD j 0 = l.getD j 0 := by
  induction l generalizing i j with
  | nil => simp [List.set]
  | cons a l ih =>
    cases i with
    | zero =>
      cases j with
      | zero => exact absurd rfl h
      | succ m => simp [List.set]
    | succ n =>
      cases j with
      | zero => simp [List.set]
      | succ m => simpa [List.set] using ih n m (fun hc => h (by omega))

lemma paddedHistory_length (B : ℕ) (vs : List ℤ) :
    (paddedHistory B vs).length = B + vs.length := by
  simp [paddedHistory]

lemma window_length (B : ℕ) (vs : List ℤ) :
    ((paddedHistory B vs).drop vs.length).length = B := by
  simp [paddedHistory]

lemma pushAll_append_singleton (B : ℕ) (gain : ℚ) (s : EnvState) (vs : List ℤ) (v : ℤ) :
    pushAll B gain s (vs ++ [v]) = (envPush B gain (pushAll B gain s vs) v).1 := by
  simp [pushAll, List.foldl_append]

/-- Positional invariant of the circular buffer: after `vs.length` pushes
from the zeroed initial state, the index is `vs.length % B`, the buffer
holds the last `B` entries of the padded history rotated so that the
oldest entry sits at the current index, and the running sum equals the
sum of that window. -/
lemma pushAll_spec (B : ℕ) (hB : 0 < B) (gain : ℚ) (vs : List ℤ) :
    (pushAll B gain (envInit B) vs).idx = vs.length % B ∧
    (pushAll B gain (envInit B) vs).buf =
      ((paddedHistory B vs).drop vs.length).drop (B - vs.length % B) ++
        ((paddedHistory B vs).drop vs.length).take (B - vs.length % B) ∧
    (pushAll B gain (envInit B) vs).sum =
      ((((paddedHistory B vs).drop vs.length).sum : ℤ) : ℚ) := by
  induction vs using List.reverseRecOn with
  | nil =>
    have hrep : ((List.replicate B (0 : ℤ)).drop B) = [] := by
      apply List.drop_of_length_le
      simp
    refine ⟨by simp [pushAll, envInit], ?_, ?_⟩
    · simp [pushAll, envInit, paddedHistory, hrep]
    · simp [pushAll, envInit, paddedHistory]
  | append_singleton vs v ih =>
    set n := vs.length with hn
    have hr : n % B < B := Nat.mod_lt _ hB
    set r := n % B with hrdef
    set P := paddedHistory B vs with hP
    set D := P.drop n with hDdef
    have hDlen : D.length = B := window_length B vs
    obtain ⟨d0, Dt, hD⟩ : ∃ d0 Dt, D = d0 :: Dt := by
      cases hcase : D with
      | nil => rw [hcase] at hDlen; simp at hDlen; omega
      | cons x xs => exact ⟨x, xs, rfl⟩
    have hDt : Dt.length = B - 1 := by
      have h1 := hDlen; rw [hD] at h1; simp at h1; omega
    obtain ⟨m, hm⟩ : ∃ m, B - r = m + 1 := ⟨B - r - 1, by omega⟩
    have hmDt : m ≤ Dt.length := by omega
    obtain ⟨hidx, hbuf, hsum⟩ := ih
    set s := pushAll B gain (envInit B) vs with hs
    have hP' : paddedHistory B (vs ++ [v]) = P ++ [v] := by
      simp [paddedHistory, hP]
    have hn' : (vs ++ [v]).length = n + 1 := by simp [hn]
    have hD' : (paddedHistory B (vs ++ [v])).drop (n + 1) = Dt ++ [v] := by
      rw [hP', List.drop_append_eq_append_drop]
      have h1 : P.drop (n + 1) = Dt := by
        have h2 : P.drop (n + 1) = (P.drop n).drop 1 := by
          rw [List.drop_drop]
        rw [h2, ← hDdef, hD]
        rfl
      have h2 : n + 1 - P.length = 0 := by
        have h3 := paddedHistory_length B vs
        rw [← hP] at h3
        omega
      rw [h1, h2]
      rfl
    have hstep : pushAll B gain (envInit B) (vs ++ [v]) =
        ⟨s.buf.set s.idx v, (s.idx + 1) % B,
          s.sum - ((s.buf.getD s.idx 0 : ℤ) : ℚ) + (v : ℚ)⟩ := by
      rw [pushAll_append_singleton, ← hs]
      rfl
    have hAlen : (D.drop (B - r)).length = r := by
      rw [List.length_drop, hDlen]
      omega
    have hCtake : D.take (B - r) = d0 :: Dt.take m := by
      rw [hm, hD, List.take_succ_cons]
    have hA : D.drop (B - r) = Dt.drop m := by
      rw [hm, hD, List.drop_succ_cons]
    have hgetD : s.buf.getD s.idx 0 = d0 := by
      rw [hidx, hbuf, getD_append_of_length _ _ _ _ hAlen, hCtake]
      rfl
    have hsetbuf : s.buf.set s.idx v = Dt.drop m ++ (v :: Dt.take m) := by
      rw [hidx, hbuf, set_append_of_length _ _ _ _ hAlen, hCtake, hA]
      rfl
    have hr1 : (n + 1) % B = (r + 1) % B := by
      rw [hrdef]
      exact (Nat.mod_add_mod n B 1).symm
    refine ⟨?_, ?_, ?_⟩
    · rw [hstep]
      show (s.idx + 1) % B = (vs ++ [v]).length % B
      rw [hidx, hn', hr1]
    · rw [hstep, hn', hD']
      show s.buf.set s.idx v =
        (Dt ++ [v]).drop (B - (n + 1) % B) ++ (Dt ++ [v]).take (B - (n + 1) % B)
      rw [hsetbuf]
      by_cases h1 : r + 1 < B
      · have hr2 : (n + 1) % B = r + 1 := hr1.trans (Nat.mod_eq_of_lt h1)
        have hBr : B - (r + 1) = m := by omega
        rw [hr2, hBr]
        have hdropD : (Dt ++ [v]).drop m = Dt.drop m ++ [v] := by
          rw [List.drop_append_eq_append_drop]
          have h2 : m - Dt.length = 0 := by omega
          rw [h2]
          rfl
        have htakeD : (Dt ++ [v]).take m = Dt.take m := by
          rw [List.take_append_eq_append_take]
          have h2 : m - Dt.length = 0 := by omega
          rw [h2]
          simp
        rw [hdropD, htakeD, List.append_assoc]
        rfl
      · have hrB : r + 1 = B := by omega
        have hr0 : (n + 1) % B = 0 := by rw [hr1, hrB, Nat.mod_self]
        have hm0 : m = 0 := by omega
        rw [hr0, hm0]
        have hdropB : (Dt ++ [v]).drop (B - 0) = [] := by
          apply List.drop_of_length_le
          simp
          omega
        have htakeB : (Dt ++ [v]).take (B - 0) = Dt ++ [v] := by
          apply List.take_of_length_le
          simp
          omega
        rw [hdropB, htakeB]
        simp
    · rw [hstep, hn', hD']
      show s.sum - ((s.buf.getD s.idx 0 : ℤ) : ℚ) + (v : ℚ) = (((Dt ++ [v]).sum : ℤ) : ℚ)
      rw [hgetD, hsum, hD]
      simp only [List.sum_cons, List.sum_append, List.sum_singleton]
      push_cast
      simp

/-- C2: for every buffer length B > 0, every gain and every sequence of
pushed rectified samples, after each envelope push the running sum equals
the exact sum of the B values currently stored in the circular buffer,
and that buffer sum equals the sum of the last B pushed values (the
pushed sequence padded in front with the initial zero fill).  This covers
`getThrottleEnvelope` (B = 128, gain 2), `getLeftRightEnvelope` (B = 64,
gain 3) and `getEnvelope` (B = 64, gain 2.5). -/
theorem running_sum_eq_buffer_sum (B : ℕ) (hB : 0 < B) (gain : ℚ) (vs : List ℤ) :
    (pushAll B gain (envInit B) vs).sum =
      (((pushAll B gain (envInit B) vs).buf.sum : ℤ) : ℚ) ∧
    (pushAll B gain (envInit B) vs).buf.sum =
      ((paddedHistory B vs).drop vs.length).sum := by
  obtain ⟨-, hbuf, hsum⟩ := pushAll_spec B hB gain vs
  have hbs : (pushAll B gain (envInit B) vs).buf.sum =
      ((paddedHistory B vs).drop vs.length).sum := by
    rw [hbuf, List.sum_append, add_comm, ← List.sum_append, List.take_append_drop]
  exact ⟨by rw [hsum, hbs], hbs⟩

theorem running_sum_eq_buffer_sum_witness :
    0 < 2 ∧
    ((pushAll 2 1 (envInit 2) [3, 4, 5]).sum =
        (((pushAll 2 1 (envInit 2) [3, 4, 5]).buf.sum : ℤ) : ℚ) ∧
      (pushAll 2 1 (envInit 2) [3, 4, 5]).buf.sum =
        ((paddedHistory 2 [3, 4, 5]).drop [3, 4, 5].length).sum) :=
  ⟨by decide, running_sum_eq_buffer_sum 2 (by decide) 1 [3, 4, 5]⟩

/-- C10: an envelope push on a state whose index is in range overwrites
exactly the slot at the current index with the new rectified value,
leaves every other slot unchanged, advances the index by one modulo B,
and the resulting index is again in [0, B), so no out-of-range access
occurs.  Instantiates to `getThrottleEnvelope` (B = 128) and
`getLeftRightEnvelope` (B = 64). -/
theorem envPush_frame (B : ℕ) (gain : ℚ) (s : EnvState) (v : ℤ)
    (hB : 0 < B) (hlen : s.buf.length = B) (hidx : s.idx < B) :
    (envPush B gain s v).1.buf.length = B ∧
    (envPush B gain s v).1.buf.getD s.idx 0 = v ∧
    (∀ i, i < B → i ≠ s.idx → (envPush B gain s v).1.buf.getD i 0 = s.buf.getD i 0) ∧
    (envPush B gain s v).1.idx = (s.idx + 1) % B ∧
    (envPush B gain s v).1.idx < B := by
  refine ⟨?_, ?_, ?_, rfl, ?_⟩
  · simp [envPush, hlen]
  · exact getD_set_self _ _ _ (by rw [hlen]; exact hidx)
  · intro i hi hne
    exact getD_set_ne _ _ _ _ (fun hc => hne hc.symm)
  · exact Nat.mod_lt _ hB

theorem envPush_frame_witness :
    (0 < 2 ∧ (envInit 2).buf.length = 2 ∧ (envInit 2).idx < 2) ∧
    ((envPush 2 1 (envInit 2) 7).1.buf.length = 2 ∧
      (envPush 2 1 (envInit 2) 7).1.buf.getD (envInit 2).idx 0 = 7 ∧
      (∀ i, i < 2 → i ≠ (envInit 2).idx →
        (envPush 2 1 (envInit 2) 7).1.buf.getD i 0 = (envInit 2).buf.getD i 0) ∧
      (envPush 2 1 (envInit 2) 7).1.idx = ((envInit 2).idx + 1) % 2 ∧
      (envPush 2 1 (envInit 2) 7).1.idx < 2) :=
  ⟨⟨by decide, by decide, by decide⟩,
    envPush_frame 2 1 (envInit 2) 7 (by decide) (by decide) (by decide)⟩

/-! ### Nonnegativity invariant of the envelope detector -/

/-- Well-formedness of an envelope channel state: fixed buffer length,
in-range index, rectified (nonnegative) stored samples, and a running
sum that matches the buffer content. -/
def EnvInv (B : ℕ) (s : EnvState) : Prop :=
  s.buf.length = B ∧ s.idx < B ∧ (∀ x ∈ s.buf, 0 ≤ x) ∧
    s.sum = ((s.buf.sum : ℤ) : ℚ)

lemma envInit_inv (B : ℕ) (hB : 0 < B) : EnvInv B (envInit B) := by
  refine ⟨by simp [envInit], by simpa [envInit] using hB, ?_, by simp [envInit]⟩
  intro x hx
  have hx0 : x = 0 := List.eq_of_mem_replicate (by simpa [envInit] using hx)
  rw [hx0]

lemma envPush_inv (B : ℕ) (gain : ℚ) (hB : 0 < B) (hg : 0 ≤ gain)
    (s : EnvState) (v : ℤ) (h : EnvInv B s) (hv : 0 ≤ v) :
    EnvInv B (envPush B gain s v).1 ∧ 0 ≤ (envPush B gain s v).2 := by
  obtain ⟨hlen, hidx, hpos, hsum⟩ := h
  have hidx2 : s.idx < s.buf.length := by rw [hlen]; exact hidx
  have hpos2 : ∀ x ∈ s.buf.set s.idx v, 0 ≤ x := by
    intro x hx
    rcases List.mem_or_eq_of_mem_set hx with h1 | h1
    · exact hpos x h1
    · rw [h1]; exact hv
  have hsum2 : (envPush B gain s v).1.sum = (((s.buf.set s.idx v).sum : ℤ) : ℚ) := by
    show s.sum - ((s.buf.getD s.idx 0 : ℤ) : ℚ) + (v : ℚ) = _
    rw [sum_set_of_lt _ _ _ hidx2, hsum]
    push_cast
    ring
  have hsumpos : 0 ≤ (envPush B gain s v).1.sum := by
    rw [hsum2]
    have := List.sum_nonneg hpos2
    exact_mod_cast this
  refine ⟨⟨by simp [envPush, hlen], Nat.mod_lt _ hB, hpos2, hsum2⟩, ?_⟩
  show 0 ≤ (envPush B gain s v).1.sum / (B : ℚ) * gain
  apply mul_nonneg _ hg
  apply div_nonneg hsumpos
  exact_mod_cast Nat.zero_le B

/-! ## Muscle-specific Butterworth filters

Each filter is a cascade of four second-order recursive sections; a
section holds two delay registers (the C `static float z1, z2`) and maps
an input sample to an output sample by
`x = in - a1*z1 - a2*z2; out = b0*x + b1*z1 + b2*z2; z2 = z1; z1 = x`. -/

structure BiquadState where
  z1 : ℚ
  z2 : ℚ
deriving DecidableEq

def biquadStep (a1 a2 b0 b1 b2 : ℚ) (s : BiquadState) (input : ℚ) :
    BiquadState × ℚ :=
  let x := input - a1 * s.z1 - a2 * s.z2
  (⟨x, s.z1⟩, b0 * x + b1 * s.z1 + b2 * s.z2)

structure FilterState where
  sec1 : BiquadState
  sec2 : BiquadState
  sec3 : BiquadState
  sec4 : BiquadState
deriving DecidableEq

def filterInit : FilterState :=
  ⟨⟨0, 0⟩, ⟨0, 0⟩, ⟨0, 0⟩, ⟨0, 0⟩⟩

/-- `float EMGFilter_Throttle(float input)`: forearm flexor band-pass. -/
def EMGFilter_Throttle (st : FilterState) (input : ℚ) : FilterState × ℚ :=
  let r1 := biquadStep 0.05159732 0.36347401 0.01856301 0.03712602 0.01856301 st.sec1 input
  let r2 := biquadStep (-0.53945795) 0.39764934 1 (-2) 1 st.sec2 r1.2
  let r3 := biquadStep 0.47319594 0.70744137 1 2 1 st.sec3 r2.2
  let r4 := biquadStep (-1.00211112) 0.74520226 1 (-2) 1 st.sec4 r3.2
  (⟨r1.1, r2.1, r3.1, r4.1⟩, r4.2)

/-- `float EMGFilter_Yaw(float input)`: forearm extensor band-pass. -/
def EMGFilter_Yaw (st : FilterState) (input : ℚ) : FilterState × ℚ :=
  let r1 := biquadStep 0.04892389 0.35654096 0.01947178 0.03894356 0.01947178 st.sec1 input
  let r2 := biquadStep (-0.52158473) 0.40192847 1 (-2) 1 st.sec2 r1.2
  let r3 := biquadStep 0.45832156 0.71245678 1 2 1 st.sec3 r2.2
  let r4 := biquadStep (-0.98754321) 0.75123456 1 (-2) 1 st.sec4 r3.2
  (⟨r1.1, r2.1, r3.1, r4.1⟩, r4.2)

/-- `float EMGFilter_Pitch(float input)`: bicep band-pass. -/
def EMGFilter_Pitch (st : FilterState) (input : ℚ) : FilterState × ℚ :=
  let r1 := biquadStep 0.04234567 0.34567891 0.02123456 0.04246912 0.02123456 st.sec1 input
  let r2 := biquadStep (-0.50123456) 0.41234567 1 (-2) 1 st.sec2 r1.2
  let r3 := biquadStep 0.43456789 0.72345678 1 2 1 st.sec3 r2.2
  let r4 := biquadStep (-0.96543210) 0.76543210 1 (-2) 1 st.sec4 r3.2
  (⟨r1.1, r2.1, r3.1, r4.1⟩, r4.2)

/-- `float EMGFilter_Roll(float input)`: tricep band-pass. -/
def EMGFilter_Roll (st : FilterState) (input : ℚ) : FilterState × ℚ :=
  let r1 := biquadStep 0.03876543 0.33456789 0.02345678 0.04691356 0.02345678 st.sec1 input
  let r2 := biquadStep (-0.48765432) 0.42345678 1 (-2) 1 st.sec2 r1.2
  let r3 := biquadStep 0.41234567 0.73456789 1 2 1 st.sec3 r2.2
  let r4 := biquadStep (-0.94321098) 0.78901234 1 (-2) 1 st.sec4 r3.2
  (⟨r1.1, r2.1, r3.1, r4.1⟩, r4.2)

/-- The argument `abs(x_filtered)` passed to the `int abs_emg` parameter
of the envelope functions: absolute value followed by the C float-to-int
conversion, which truncates toward zero; on a nonnegative value that is
the floor. -/
def rectify (x : ℚ) : ℤ :=
  Int.floor |x|

/-! ## Whole-system state of arduino_emg_code.ino -/

structure SysState where
  filtT : FilterState
  filtY : FilterState
  filtP : FilterState
  filtR : FilterState
  envT : EnvState
  envY : EnvState
  envP : EnvState
  envR : EnvState
  baseT : ℚ
  baseY : ℚ
  baseP : ℚ
  baseR : ℚ
  is_calibrated : Bool
  calibration_counter : ℕ
  peakT : ℚ
  peakY : ℚ
  peakP : ℚ
  peakR : ℚ
deriving DecidableEq

/-- Global state right after `setup()`: zeroed filters, zero-filled
buffers, zero baselines and peaks, `is_calibrated = false`,
`calibration_counter = 0`. -/
def sysInit : SysState :=
  ⟨filterInit, filterInit, filterInit, filterInit,
    envInit BUFFER_SIZE, envInit BUFFER_SIZE, envInit BUFFER_SIZE, envInit BUFFER_SIZE,
    0, 0, 0, 0, false, 0, 0, 0, 0, 0⟩

/-- `void updateCalibration(float t, float y, float p, float r)`:
accumulate each envelope into the baseline accumulator, bump the shared
counter, and on reaching CALIBRATION_SAMPLES divide the accumulators by
the sample count and set `is_calibrated`. -/
def updateCalibration (st : SysState) (t y p r : ℚ) : SysState :=
  let bT := st.baseT + t
  let bY := st.baseY + y
  let bP := st.baseP + p
  let bR := st.baseR + r
  let c := st.calibration_counter + 1
  if CALIBRATION_SAMPLES ≤ c then
    { st with
      baseT := bT / (CALIBRATION_SAMPLES : ℚ), baseY := bY / (CALIBRATION_SAMPLES : ℚ),
      baseP := bP / (CALIBRATION_SAMPLES : ℚ), baseR := bR / (CALIBRATION_SAMPLES : ℚ),
      calibration_counter := c, is_calibrated := true }
  else
    { st with
      baseT := bT, baseY := bY, baseP := bP, baseR := bR,
      calibration_counter := c }

/-- `void updateBaselines(float t, float y, float p, float r)`:
exponential smoothing with BASELINE_ALPHA. -/
def updateBaselines (st : SysState) (t y p r : ℚ) : SysState :=
  { st with
    baseT := BASELINE_ALPHA * st.baseT + (1 - BASELINE_ALPHA) * t,
    baseY := BASELINE_ALPHA * st.baseY + (1 - BASELINE_ALPHA) * y,
    baseP := BASELINE_ALPHA * st.baseP + (1 - BASELINE_ALPHA) * p,
    baseR := BASELINE_ALPHA * st.baseR + (1 - BASELINE_ALPHA) * r }

/-- `float applyAdaptiveThreshold(float signal, float baseline)` of
arduino_emg_code.ino: threshold at baseline + baseline * multiplier,
output the excess over baseline or zero. -/
def applyAdaptiveThreshold (signal baseline : ℚ) : ℚ :=
  let threshold := baseline + baseline * DYNAMIC_THRESHOLD_MULTIPLIER
  if threshold < signal then signal - baseline else 0

/-- `void updatePeakTracking(float t, float y, float p, float r)` of
arduino_emg_code.ino: decaying peak hold with decay 0.999. -/
def updatePeakTracking (st : SysState) (t y p r : ℚ) : SysState :=
  { st with
    peakT := max (st.peakT * 0.999) t,
    peakY := max (st.peakY * 0.999) y,
    peakP := max (st.peakP * 0.999) p,
    peakR := max (st.peakR * 0.999) r }

/-- `void updatePeakTracking(float signal)` of the 1-channel vertical
variant (the 2-channel crosshair variant uses the same decay): decay
0.995. -/
def updatePeakTracking_single (signal_peak signal : ℚ) : ℚ :=
  max (signal_peak * 0.995) signal

/-- `float calculateSNR(float signal_peak, float noise_baseline)`:
sentinel 999 on a zero baseline, otherwise the ratio. -/
def calculateSNR (signal_peak noise_baseline : ℚ) : ℚ :=
  if noise_baseline = 0 then 999 else signal_peak / noise_baseline

/-- Classification token of the QUALITY line. -/
inductive QualityClass where
  | GOOD : QualityClass
  | LOW_QUALITY : QualityClass
deriving DecidableEq

/-- `void checkSignalQuality()`: per-channel SNRs plus the composite
token, LOW_QUALITY when any SNR is strictly below MIN_SNR. -/
def checkSignalQuality (st : SysState) : (ℚ × ℚ × ℚ × ℚ) × QualityClass :=
  let snr_throttle := calculateSNR st.peakT st.baseT
  let snr_yaw := calculateSNR st.peakY st.baseY
  let snr_pitch := calculateSNR st.peakP st.baseP
  let snr_roll := calculateSNR st.peakR st.baseR
  ((snr_throttle, snr_yaw, snr_pitch, snr_roll),
    if snr_throttle < MIN_SNR ∨ snr_yaw < MIN_SNR ∨
        snr_pitch < MIN_SNR ∨ snr_roll < MIN_SNR then
      QualityClass.LOW_QUALITY
    else
      QualityClass.GOOD)

/-- Observable outcome of one conditioning cycle (the body of the
`if (timer < 0)` block of `loop()`): the amplified envelopes, whether
the adaptive-threshold branch ran, the EMG data line (outputs and
baselines) if one was written, and the QUALITY report if one was
written.  During calibration the cycle returns early, so the EMG line
is absent rather than zero-valued. -/
structure CycleOut where
  env : ℚ × ℚ × ℚ × ℚ
  thresholdApplied : Bool
  emg : Option ((ℚ × ℚ × ℚ × ℚ) × (ℚ × ℚ × ℚ × ℚ))
  quality : Option ((ℚ × ℚ × ℚ × ℚ) × QualityClass)
deriving DecidableEq

/-- One conditioning cycle of `loop()` in arduino_emg_code.ino: filter
the four raw samples, rectify, push into the envelope buffers, amplify
by 10; then either accumulate calibration and return early, or smooth
baselines, threshold, track peaks, optionally report quality
(`qualityDue` abstracts the wall-clock gate
`millis() - last_quality_check > QUALITY_CHECK_INTERVAL`) and write the
EMG data line. -/
def loopCycle (st : SysState) (qualityDue : Bool) (tRaw yRaw pRaw rRaw : ℚ) :
    SysState × CycleOut :=
  let fT := EMGFilter_Throttle st.filtT tRaw
  let fY := EMGFilter_Yaw st.filtY yRaw
  let fP := EMGFilter_Pitch st.filtP pRaw
  let fR := EMGFilter_Roll st.filtR rRaw
  let eT := getThrottleEnvelope st.envT (rectify fT.2)
  let eY := getYawEnvelope st.envY (rectify fY.2)
  let eP := getPitchEnvelope st.envP (rectify fP.2)
  let eR := getRollEnvelope st.envR (rectify fR.2)
  let tEnv := eT.2 * 10
  let yEnv := eY.2 * 10
  let pEnv := eP.2 * 10
  let rEnv := eR.2 * 10
  let st1 := { st with
    filtT := fT.1, filtY := fY.1, filtP := fP.1, filtR := fR.1,
    envT := eT.1, envY := eY.1, envP := eP.1, envR := eR.1 }
  if st.is_calibrated = false then
    (updateCalibration st1 tEnv yEnv pEnv rEnv,
      ⟨(tEnv, yEnv, pEnv, rEnv), false, none, none⟩)
  else
    let st2 := updateBaselines st1 tEnv yEnv pEnv rEnv
    let tOut := applyAdaptiveThreshold tEnv st2.baseT
    let yOut := applyAdaptiveThreshold yEnv st2.baseY
    let pOut := applyAdaptiveThreshold pEnv st2.baseP
    let rOut := applyAdaptiveThreshold rEnv st2.baseR
    let st3 := updatePeakTracking st2 tOut yOut pOut rOut
    (st3,
      ⟨(tEnv, yEnv, pEnv, rEnv), true,
        some ((tOut, yOut, pOut, rOut), (st3.baseT, st3.baseY, st3.baseP, st3.baseR)),
        if qualityDue then some (checkSignalQuality st3) else none⟩)

/-- Run a sequence of conditioning cycles; each input is the
quality-gate flag and the four raw ADC samples of that cycle. -/
def runCycles : SysState → List (Bool × ℚ × ℚ × ℚ × ℚ) → SysState × List CycleOut
  | st, [] => (st, [])
  | st, i :: tl =>
    let p := loopCycle st i.1 i.2.1 i.2.2.1 i.2.2.2.1 i.2.2.2.2
    let rest := runCycles p.1 tl
    (rest.1, p.2 :: rest.2)

/-- Iterate `updateCalibration` over a list of per-cycle envelope
4-tuples, as `loop()` does while `is_calibrated` is false. -/
def calRun (st : SysState) (es : List (ℚ × ℚ × ℚ × ℚ)) : SysState :=
  es.foldl (fun t e => updateCalibration t e.1 e.2.1 e.2.2.1 e.2.2.2) st

/-- One poll of the scheduler at the top of `loop()`: subtract the
measured elapsed microseconds from the countdown timer; when the result
is strictly negative, add the nominal period `1000000 / SAMPLE_RATE`
back and run one conditioning cycle.  Returns the new timer value and
whether a cycle ran. -/
def pollStep (timer : ℤ) (interval : ℕ) : ℤ × Bool :=
  let t2 := timer - (interval : ℤ)
  if t2 < 0 then (t2 + (1000000 / (SAMPLE_RATE : ℤ)), true) else (t2, false)

/-! ## Threshold variants with square-root compression (over ℝ)

The 2-channel crosshair variant (`DYNAMIC_THRESHOLD_MULTIPLIER 1.5`,
smoothing `sqrt(output) * 5.0`, plus the post-gain `*= 2.0` applied in
its `loop()`), and the 1-channel vertical variant
(`DYNAMIC_THRESHOLD_MULTIPLIER 1.3`, threshold floored by the noise
floor, smoothing `sqrt(output) * 4.0`). -/

/-- `float applyAdaptiveThreshold(float signal, float baseline)` of the
2-channel crosshair variant. -/
noncomputable def applyAdaptiveThreshold_crosshair (signal baseline : ℝ) : ℝ :=
  let threshold := baseline + baseline * 1.5
  let output := if threshold < signal then signal - baseline else 0
  if 0 < output then Real.sqrt output * 5.0 else output

/-- `float applyAdaptiveThreshold(float signal)` of the 1-channel
vertical variant, with the globals `baseline` and `noise_floor` passed
explicitly. -/
noncomputable def applyAdaptiveThreshold_vertical (signal baseline noise_floor : ℝ) : ℝ :=
  let threshold := max (baseline + baseline * 1.3) noise_floor
  let output := if threshold < signal then signal - baseline else 0
  if 0 < output then Real.sqrt output * 4.0 else output

/-! ## Claim theorems -/

/-- C4, counterexample to the claim as stated: a poll where the timer
becomes exactly zero after subtracting the elapsed time leaves it
non-positive, yet no conditioning cycle runs, because the code triggers
on `timer < 0`, not `timer <= 0`. -/
theorem pollStep_nonpositive_no_cycle :
    (2000 : ℤ) - ((2000 : ℕ) : ℤ) ≤ 0 ∧ (pollStep 2000 2000).2 = false := by
  constructor
  · decide
  · rfl

/-- C4 (amended): a conditioning cycle runs exactly when the countdown
timer has gone strictly negative after subtracting the measured elapsed
time; on that trigger the nominal period 1000000/SAMPLE_RATE is added to
the timer rather than the timer being reset to the period, so overrun is
credited, and exactly one conditioning cycle runs per trigger. -/
theorem pollStep_spec (timer : ℤ) (interval : ℕ) :
    ((pollStep timer interval).2 = true ↔ timer - (interval : ℤ) < 0) ∧
    (timer - (interval : ℤ) < 0 →
      (pollStep timer interval).1 =
        timer - (interval : ℤ) + 1000000 / (SAMPLE_RATE : ℤ)) ∧
    (0 ≤ timer - (interval : ℤ) →
      (pollStep timer interval).1 = timer - (interval : ℤ)) := by
  have hd : pollStep timer interval =
      if timer - (interval : ℤ) < 0
      then (timer - (interval : ℤ) + 1000000 / (SAMPLE_RATE : ℤ), true)
      else (timer - (interval : ℤ), false) := rfl
  by_cases h : timer - (interval : ℤ) < 0
  · rw [hd, if_pos h]
    exact ⟨by simp [h], fun _ => rfl, fun hc => absurd h (not_lt.mpr hc)⟩
  · rw [hd, if_neg h]
    exact ⟨by simp [h], fun hc => absurd hc h, fun _ => rfl⟩

theorem pollStep_spec_witness :
    (0 : ℤ) - ((5 : ℕ) : ℤ) < 0 ∧
    (pollStep 0 5).1 = (0 : ℤ) - ((5 : ℕ) : ℤ) + 1000000 / (SAMPLE_RATE : ℤ) :=
  ⟨by decide, (pollStep_spec 0 5).2.1 (by decide)⟩

/-- C7: after a peak-tracking update each stored peak is at least the
decay factor times the previous peak and at least the new output value,
both for the 4-channel variant (decay 0.999) and for the single-channel
form shared by the crosshair and vertical variants (decay 0.995). -/
theorem peak_ratchet (st : SysState) (t y p r signal_peak signal : ℚ) :
    (0.999 * st.peakT ≤ (updatePeakTracking st t y p r).peakT ∧
      t ≤ (updatePeakTracking st t y p r).peakT) ∧
    (0.999 * st.peakY ≤ (updatePeakTracking st t y p r).peakY ∧
      y ≤ (updatePeakTracking st t y p r).peakY) ∧
    (0.999 * st.peakP ≤ (updatePeakTracking st t y p r).peakP ∧
      p ≤ (updatePeakTracking st t y p r).peakP) ∧
    (0.999 * st.peakR ≤ (updatePeakTracking st t y p r).peakR ∧
      r ≤ (updatePeakTracking st t y p r).peakR) ∧
    (0.995 * signal_peak ≤ updatePeakTracking_single signal_peak signal ∧
      signal ≤ updatePeakTracking_single signal_peak signal) := by
  refine ⟨⟨?_, ?_⟩, ⟨?_, ?_⟩, ⟨?_, ?_⟩, ⟨?_, ?_⟩, ⟨?_, ?_⟩⟩
  · show 0.999 * st.peakT ≤ max (st.peakT * 0.999) t
    rw [mul_comm]
    exact le_max_left _ _
  · exact le_max_right _ _
  · show 0.999 * st.peakY ≤ max (st.peakY * 0.999) y
    rw [mul_comm]
    exact le_max_left _ _
  · exact le_max_right _ _
  · show 0.999 * st.peakP ≤ max (st.peakP * 0.999) p
    rw [mul_comm]
    exact le_max_left _ _
  · exact le_max_right _ _
  · show 0.999 * st.peakR ≤ max (st.peakR * 0.999) r
    rw [mul_comm]
    exact le_max_left _ _
  · exact le_max_right _ _
  · show 0.995 * signal_peak ≤ max (signal_peak * 0.995) signal
    rw [mul_comm]
    exact le_max_left _ _
  · exact le_max_right _ _

/-- C8: `calculateSNR` returns the sentinel 999 exactly on a zero
baseline regardless of the peak, and the quotient otherwise; being a
total function, these two guarded branches exhaust its behaviour. -/
theorem calculateSNR_spec (signal_peak noise_baseline : ℚ) :
    (noise_baseline = 0 → calculateSNR signal_peak noise_baseline = 999) ∧
    (noise_baseline ≠ 0 →
      calculateSNR signal_peak noise_baseline = signal_peak / noise_baseline) := by
  constructor
  · intro h
    simp [calculateSNR, h]
  · intro h
    simp [calculateSNR, h]

theorem calculateSNR_spec_witness :
    calculateSNR 7 0 = 999 ∧ calculateSNR 6 2 = 6 / 2 :=
  ⟨(calculateSNR_spec 7 0).1 rfl, (calculateSNR_spec 6 2).2 (by norm_num)⟩

/-- C9: the quality check classifies GOOD exactly when every channel's
SNR is at least MIN_SNR, and LOW_QUALITY exactly when some channel's SNR
is strictly below MIN_SNR; in particular an SNR equal to MIN_SNR counts
as GOOD. -/
theorem quality_token_iff (st : SysState) :
    ((checkSignalQuality st).2 = QualityClass.GOOD ↔
      (MIN_SNR ≤ calculateSNR st.peakT st.baseT ∧
        MIN_SNR ≤ calculateSNR st.peakY st.baseY ∧
        MIN_SNR ≤ calculateSNR st.peakP st.baseP ∧
        MIN_SNR ≤ calculateSNR st.peakR st.baseR)) ∧
    ((checkSignalQuality st).2 = QualityClass.LOW_QUALITY ↔
      (calculateSNR st.peakT st.baseT < MIN_SNR ∨
        calculateSNR st.peakY st.baseY < MIN_SNR ∨
        calculateSNR st.peakP st.baseP < MIN_SNR ∨
        calculateSNR st.peakR st.baseR < MIN_SNR)) := by
  have key : (checkSignalQuality st).2 = QualityClass.LOW_QUALITY ↔
      (calculateSNR st.peakT st.baseT < MIN_SNR ∨
        calculateSNR st.peakY st.baseY < MIN_SNR ∨
        calculateSNR st.peakP st.baseP < MIN_SNR ∨
        calculateSNR st.peakR st.baseR < MIN_SNR) := by
    show (if _ then QualityClass.LOW_QUALITY else QualityClass.GOOD) = _ ↔ _
    split_ifs with h
    · simp [h]
    · simp [h]
  have dichotomy : ∀ q : QualityClass,
      q = QualityClass.GOOD ↔ ¬(q = QualityClass.LOW_QUALITY) := by
    intro q
    cases q <;> simp
  constructor
  · rw [dichotomy, key]
    push_neg
    simp [not_lt]
  · exact key

lemma applyAdaptiveThreshold_excess (b e : ℚ) (he : 0 < e) :
    applyAdaptiveThreshold (b + b * DYNAMIC_THRESHOLD_MULTIPLIER + e) b =
      b * DYNAMIC_THRESHOLD_MULTIPLIER + e := by
  show (if b + b * DYNAMIC_THRESHOLD_MULTIPLIER <
      b + b * DYNAMIC_THRESHOLD_MULTIPLIER + e then _ else _) = _
  rw [if_pos (by linarith)]
  ring

lemma crosshair_excess (b e : ℝ) (hb : 0 ≤ b) (he : 0 < e) :
    applyAdaptiveThreshold_crosshair (b + b * 1.5 + e) b =
      Real.sqrt (b * 1.5 + e) * 5.0 := by
  have hb15 : (0 : ℝ) ≤ b * 1.5 := mul_nonneg hb (by norm_num)
  have h1 : b + b * 1.5 < b + b * 1.5 + e := by linarith
  have h0 : (0 : ℝ) < b + b * 1.5 + e - b := by linarith
  show (if 0 < (if b + b * 1.5 < b + b * 1.5 + e
        then b + b * 1.5 + e - b else 0)
      then Real.sqrt (if b + b * 1.5 < b + b * 1.5 + e
        then b + b * 1.5 + e - b else 0) * 5.0
      else (if b + b * 1.5 < b + b * 1.5 + e
        then b + b * 1.5 + e - b else 0)) = _
  rw [if_pos h1, if_pos h0]
  have harg : b + b * 1.5 + e - b = b * 1.5 + e := by ring
  rw [harg]

lemma vertical_excess (b nf e : ℝ) (hb : 0 ≤ b) (he : 0 < e) :
    applyAdaptiveThreshold_vertical (max (b + b * 1.3) nf + e) b nf =
      Real.sqrt (max (b + b * 1.3) nf + e - b) * 4.0 := by
  have hb13 : (0 : ℝ) ≤ b * 1.3 := mul_nonneg hb (by norm_num)
  have hT : b + b * 1.3 ≤ max (b + b * 1.3) nf := le_max_left _ _
  have h1 : max (b + b * 1.3) nf < max (b + b * 1.3) nf + e := by linarith
  have h0 : (0 : ℝ) < max (b + b * 1.3) nf + e - b := by linarith
  show (if 0 < (if max (b + b * 1.3) nf < max (b + b * 1.3) nf + e
        then max (b + b * 1.3) nf + e - b else 0)
      then Real.sqrt (if max (b + b * 1.3) nf < max (b + b * 1.3) nf + e
        then max (b + b * 1.3) nf + e - b else 0) * 4.0
      else (if max (b + b * 1.3) nf < max (b + b * 1.3) nf + e
        then max (b + b * 1.3) nf + e - b else 0)) = _
  rw [if_pos h1, if_pos h0]

/-- C6: for every fixed nonnegative baseline, the thresholded output is
positive whenever the signal exceeds the threshold, and on that region
it is a monotonically non-decreasing function of the excess of the
signal over the threshold: for the plain signal-minus-baseline variant
of arduino_emg_code.ino, for the crosshair variant with square-root
compression and its post-gain of 2, and for the vertical variant with a
noise-floored threshold and square-root compression. -/
theorem adaptive_threshold_monotone :
    (∀ baseline : ℚ, 0 ≤ baseline →
      (∀ e : ℚ, 0 < e →
        0 < applyAdaptiveThreshold
          (baseline + baseline * DYNAMIC_THRESHOLD_MULTIPLIER + e) baseline) ∧
      (∀ e1 e2 : ℚ, 0 < e1 → e1 ≤ e2 →
        applyAdaptiveThreshold
            (baseline + baseline * DYNAMIC_THRESHOLD_MULTIPLIER + e1) baseline ≤
          applyAdaptiveThreshold
            (baseline + baseline * DYNAMIC_THRESHOLD_MULTIPLIER + e2) baseline)) ∧
    (∀ baseline : ℝ, 0 ≤ baseline →
      (∀ e : ℝ, 0 < e →
        0 < applyAdaptiveThreshold_crosshair (baseline + baseline * 1.5 + e) baseline * 2) ∧
      (∀ e1 e2 : ℝ, 0 < e1 → e1 ≤ e2 →
        applyAdaptiveThreshold_crosshair (baseline + baseline * 1.5 + e1) baseline * 2 ≤
          applyAdaptiveThreshold_crosshair (baseline + baseline * 1.5 + e2) baseline * 2)) ∧
    (∀ baseline noise_floor : ℝ, 0 ≤ baseline →
      (∀ e : ℝ, 0 < e →
        0 < applyAdaptiveThreshold_vertical
          (max (baseline + baseline * 1.3) noise_floor + e) baseline noise_floor) ∧
      (∀ e1 e2 : ℝ, 0 < e1 → e1 ≤ e2 →
        applyAdaptiveThreshold_vertical
            (max (baseline + baseline * 1.3) noise_floor + e1) baseline noise_floor ≤
          applyAdaptiveThreshold_vertical
            (max (baseline + baseline * 1.3) noise_floor + e2) baseline noise_floor)) := by
  refine ⟨fun b hb => ⟨?_, ?_⟩, fun b hb => ⟨?_, ?_⟩, fun b nf hb => ⟨?_, ?_⟩⟩
  · intro e he
    rw [applyAdaptiveThreshold_excess b e he]
    have : (0 : ℚ) ≤ b * DYNAMIC_THRESHOLD_MULTIPLIER :=
      mul_nonneg hb (by norm_num [DYNAMIC_THRESHOLD_MULTIPLIER])
    linarith
  · intro e1 e2 h1 h12
    rw [applyAdaptiveThreshold_excess b e1 h1,
      applyAdaptiveThreshold_excess b e2 (lt_of_lt_of_le h1 h12)]
    linarith
  · intro e he
    rw [crosshair_excess b e hb he]
    have harg : (0 : ℝ) < b * 1.5 + e := by
      have : (0 : ℝ) ≤ b * 1.5 := mul_nonneg hb (by norm_num)
      linarith
    have hs : 0 < Real.sqrt (b * 1.5 + e) := Real.sqrt_pos.mpr harg
    nlinarith
  · intro e1 e2 h1 h12
    rw [crosshair_excess b e1 hb h1, crosshair_excess b e2 hb (lt_of_lt_of_le h1 h12)]
    have hs : Real.sqrt (b * 1.5 + e1) ≤ Real.sqrt (b * 1.5 + e2) :=
      Real.sqrt_le_sqrt (by linarith)
    nlinarith
  · intro e he
    rw [vertical_excess b nf e hb he]
    have hT : b + b * 1.3 ≤ max (b + b * 1.3) nf := le_max_left _ _
    have harg : (0 : ℝ) < max (b + b * 1.3) nf + e - b := by
      have : (0 : ℝ) ≤ b * 1.3 := mul_nonneg hb (by norm_num)
      linarith
    have hs : 0 < Real.sqrt (max (b + b * 1.3) nf + e - b) := Real.sqrt_pos.mpr harg
    nlinarith
  · intro e1 e2 h1 h12
    rw [vertical_excess b nf e1 hb h1, vertical_excess b nf e2 hb (lt_of_lt_of_le h1 h12)]
    have hs : Real.sqrt (max (b + b * 1.3) nf + e1 - b) ≤
        Real.sqrt (max (b + b * 1.3) nf + e2 - b) :=
      Real.sqrt_le_sqrt (by linarith)
    nlinarith

theorem adaptive_threshold_monotone_witness :
    (0 : ℚ) ≤ 0 ∧ (0 : ℝ) ≤ 0 ∧
    0 < applyAdaptiveThreshold (0 + 0 * DYNAMIC_THRESHOLD_MULTIPLIER + 1) 0 ∧
    0 < applyAdaptiveThreshold_crosshair (0 + 0 * 1.5 + 1) 0 * 2 ∧
    0 < applyAdaptiveThreshold_vertical (max (0 + 0 * 1.3) 0 + 1) 0 0 :=
  ⟨le_refl 0, le_refl 0,
    (adaptive_threshold_monotone.1 0 (le_refl 0)).1 1 one_pos,
    (adaptive_threshold_monotone.2.1 0 (le_refl 0)).1 1 one_pos,
    (adaptive_threshold_monotone.2.2 0 0 (le_refl 0)).1 1 one_pos⟩

lemma calRun_below (es : List (ℚ × ℚ × ℚ × ℚ)) : ∀ st : SysState,
    st.calibration_counter + es.length < CALIBRATION_SAMPLES →
    (calRun st es).is_calibrated = st.is_calibrated ∧
    (calRun st es).calibration_counter = st.calibration_counter + es.length ∧
    (calRun st es).baseT = st.baseT + (es.map (fun e => e.1)).sum ∧
    (calRun st es).baseY = st.baseY + (es.map (fun e => e.2.1)).sum ∧
    (calRun st es).baseP = st.baseP + (es.map (fun e => e.2.2.1)).sum ∧
    (calRun st es).baseR = st.baseR + (es.map (fun e => e.2.2.2)).sum := by
  induction es with
  | nil =>
    intro st h
    refine ⟨rfl, by simp [calRun], by simp [calRun], by simp [calRun], by simp [calRun], by simp [calRun]⟩
  | cons e tl ih =>
    intro st h
    have hlen : st.calibration_counter + (tl.length + 1) < CALIBRATION_SAMPLES := by
      simpa using h
    have hc : ¬ (CALIBRATION_SAMPLES ≤ st.calibration_counter + 1) := by omega
    have hup : updateCalibration st e.1 e.2.1 e.2.2.1 e.2.2.2 =
        { st with
          baseT := st.baseT + e.1, baseY := st.baseY + e.2.1,
          baseP := st.baseP + e.2.2.1, baseR := st.baseR + e.2.2.2,
          calibration_counter := st.calibration_counter + 1 } := by
      show (if CALIBRATION_SAMPLES ≤ st.calibration_counter + 1 then _ else _) = _
      rw [if_neg hc]
    have hstep : calRun st (e :: tl) =
        calRun (updateCalibration st e.1 e.2.1 e.2.2.1 e.2.2.2) tl := rfl
    obtain ⟨h1, h2, h3, h4, h5, h6⟩ :=
      ih { st with
            baseT := st.baseT + e.1, baseY := st.baseY + e.2.1,
            baseP := st.baseP + e.2.2.1, baseR := st.baseR + e.2.2.2,
            calibration_counter := st.calibration_counter + 1 }
        (by simp; omega)
    rw [hstep, hup]
    refine ⟨h1, ?_, ?_, ?_, ?_, ?_⟩
    · rw [h2]
      simp
      omega
    · rw [h3]
      simp
      ring
    · rw [h4]
      simp
      ring
    · rw [h5]
      simp
      ring
    · rw [h6]
      simp
      ring

/-- C1: from the initial state (accumulators 0, counter 0,
`is_calibrated` false), feeding per-cycle envelope 4-tuples through the
calibration step flips `is_calibrated` after exactly CALIBRATION_SAMPLES
cycles - every strict prefix leaves it false - and at the moment of
transition each channel's baseline equals the arithmetic mean of that
channel's envelope values over the window (exactly, in the rational
model). -/
theorem calibration_transition (es : List (ℚ × ℚ × ℚ × ℚ))
    (h : es.length = CALIBRATION_SAMPLES) :
    (calRun sysInit es).is_calibrated = true ∧
    (calRun sysInit es).baseT =
      (es.map (fun e => e.1)).sum / (CALIBRATION_SAMPLES : ℚ) ∧
    (calRun sysInit es).baseY =
      (es.map (fun e => e.2.1)).sum / (CALIBRATION_SAMPLES : ℚ) ∧
    (calRun sysInit es).baseP =
      (es.map (fun e => e.2.2.1)).sum / (CALIBRATION_SAMPLES : ℚ) ∧
    (calRun sysInit es).baseR =
      (es.map (fun e => e.2.2.2)).sum / (CALIBRATION_SAMPLES : ℚ) ∧
    (∀ k, k < CALIBRATION_SAMPLES →
      (calRun sysInit (es.take k)).is_calibrated = false) := by
  have hN : CALIBRATION_SAMPLES = 1000 := rfl
  have hkpre : ∀ k, k < CALIBRATION_SAMPLES →
      (calRun sysInit (es.take k)).is_calibrated = false := by
    intro k hk
    have hlen : (es.take k).length = k := by
      rw [List.length_take]
      omega
    have := (calRun_below (es.take k) sysInit (by
      show sysInit.calibration_counter + (es.take k).length < CALIBRATION_SAMPLES
      rw [hlen]
      show 0 + k < CALIBRATION_SAMPLES
      omega)).1
    rw [this]
    rfl
  induction es using List.reverseRecOn with
  | nil =>
    rw [hN] at h
    simp at h
  | append_singleton es' a ih =>
    clear ih
    have hlen' : es'.length + 1 = CALIBRATION_SAMPLES := by simpa using h
    set mid := calRun sysInit es' with hmid
    obtain ⟨m1, m2, m3, m4, m5, m6⟩ :=
      calRun_below es' sysInit (by
        show sysInit.calibration_counter + es'.length < CALIBRATION_SAMPLES
        show 0 + es'.length < CALIBRATION_SAMPLES
        omega)
    have hstep : calRun sysInit (es' ++ [a]) =
        updateCalibration mid a.1 a.2.1 a.2.2.1 a.2.2.2 := by
      simp [calRun, List.foldl_append, hmid]
    have hcc : CALIBRATION_SAMPLES ≤ mid.calibration_counter + 1 := by
      rw [m2]
      show CALIBRATION_SAMPLES ≤ 0 + es'.length + 1
      omega
    have hupd : updateCalibration mid a.1 a.2.1 a.2.2.1 a.2.2.2 =
        { mid with
          baseT := (mid.baseT + a.1) / (CALIBRATION_SAMPLES : ℚ),
          baseY := (mid.baseY + a.2.1) / (CALIBRATION_SAMPLES : ℚ),
          baseP := (mid.baseP + a.2.2.1) / (CALIBRATION_SAMPLES : ℚ),
          baseR := (mid.baseR + a.2.2.2) / (CALIBRATION_SAMPLES : ℚ),
          calibration_counter := mid.calibration_counter + 1,
          is_calibrated := true } := by
      show (if CALIBRATION_SAMPLES ≤ mid.calibration_counter + 1 then _ else _) = _
      rw [if_pos hcc]
    refine ⟨by rw [hstep, hupd], ?_, ?_, ?_, ?_, hkpre⟩
    · rw [hstep, hupd]
      show (mid.baseT + a.1) / (CALIBRATION_SAMPLES : ℚ) = _
      rw [m3]
      show (sysInit.baseT + _ + _) / _ = _
      simp [sysInit]
    · rw [hstep, hupd]
      show (mid.baseY + a.2.1) / (CALIBRATION_SAMPLES : ℚ) = _
      rw [m4]
      show (sysInit.baseY + _ + _) / _ = _
      simp [sysInit]
    · rw [hstep, hupd]
      show (mid.baseP + a.2.2.1) / (CALIBRATION_SAMPLES : ℚ) = _
      rw [m5]
      show (sysInit.baseP + _ + _) / _ = _
      simp [sysInit]
    · rw [hstep, hupd]
      show (mid.baseR + a.2.2.2) / (CALIBRATION_SAMPLES : ℚ) = _
      rw [m6]
      show (sysInit.baseR + _ + _) / _ = _
      simp [sysInit]

theorem calibration_transition_witness :
    (List.replicate CALIBRATION_SAMPLES ((0 : ℚ), (0 : ℚ), (0 : ℚ), (0 : ℚ))).length =
      CALIBRATION_SAMPLES ∧
    ((calRun sysInit
        (List.replicate CALIBRATION_SAMPLES ((0 : ℚ), (0 : ℚ), (0 : ℚ), (0 : ℚ)))).is_calibrated = true ∧
      (calRun sysInit
        (List.replicate CALIBRATION_SAMPLES ((0 : ℚ), (0 : ℚ), (0 : ℚ), (0 : ℚ)))).baseT =
        ((List.replicate CALIBRATION_SAMPLES ((0 : ℚ), (0 : ℚ), (0 : ℚ), (0 : ℚ))).map
          (fun e => e.1)).sum / (CALIBRATION_SAMPLES : ℚ) ∧
      (calRun sysInit
        (List.replicate CALIBRATION_SAMPLES ((0 : ℚ), (0 : ℚ), (0 : ℚ), (0 : ℚ)))).baseY =
        ((List.replicate CALIBRATION_SAMPLES ((0 : ℚ), (0 : ℚ), (0 : ℚ), (0 : ℚ))).map
          (fun e => e.2.1)).sum / (CALIBRATION_SAMPLES : ℚ) ∧
      (calRun sysInit
        (List.replicate CALIBRATION_SAMPLES ((0 : ℚ), (0 : ℚ), (0 : ℚ), (0 : ℚ)))).baseP =
        ((List.replicate CALIBRATION_SAMPLES ((0 : ℚ), (0 : ℚ), (0 : ℚ), (0 : ℚ))).map
          (fun e => e.2.2.1)).sum / (CALIBRATION_SAMPLES : ℚ) ∧
      (calRun sysInit
        (List.replicate CALIBRATION_SAMPLES ((0 : ℚ), (0 : ℚ), (0 : ℚ), (0 : ℚ)))).baseR =
        ((List.replicate CALIBRATION_SAMPLES ((0 : ℚ), (0 : ℚ), (0 : ℚ), (0 : ℚ))).map
          (fun e => e.2.2.2)).sum / (CALIBRATION_SAMPLES : ℚ) ∧
      (∀ k, k < CALIBRATION_SAMPLES →
        (calRun sysInit
          ((List.replicate CALIBRATION_SAMPLES
            ((0 : ℚ), (0 : ℚ), (0 : ℚ), (0 : ℚ))).take k)).is_calibrated = false)) :=
  ⟨List.length_replicate _ _,
    calibration_transition _ (List.length_replicate _ _)⟩

lemma loopCycle_not_calibrated (st : SysState) (qd : Bool) (a b c d : ℚ)
    (h : st.is_calibrated = false) :
    (loopCycle st qd a b c d).2.thresholdApplied = false ∧
    (loopCycle st qd a b c d).2.emg = none := by
  simp [loopCycle, h]

lemma runCycles_gate_aux :
    ∀ (ins : List (Bool × ℚ × ℚ × ℚ × ℚ)) (st : SysState) (i : ℕ)
      (hi : i < ((runCycles st ins).2).length),
      (runCycles st (ins.take i)).1.is_calibrated = false →
      (((runCycles st ins).2).get ⟨i, hi⟩).thresholdApplied = false ∧
      (((runCycles st ins).2).get ⟨i, hi⟩).emg = none := by
  intro ins
  induction ins with
  | nil =>
    intro st i hi
    simp [runCycles] at hi
  | cons x tl ih =>
    intro st i hi hcal
    cases i with
    | zero =>
      exact loopCycle_not_calibrated st x.1 x.2.1 x.2.2.1 x.2.2.2.1 x.2.2.2.2 hcal
    | succ j =>
      have hj : j <
          ((runCycles (loopCycle st x.1 x.2.1 x.2.2.1 x.2.2.2.1 x.2.2.2.2).1 tl).2).length := by
        have h2 := hi
        simpa [runCycles] using h2
      exact ih (loopCycle st x.1 x.2.1 x.2.2.1 x.2.2.2.1 x.2.2.2.2).1 j hj hcal

/-- C3: in every run from the initial state, any conditioning cycle
entered while `is_calibrated` is still false neither invokes the
adaptive-threshold branch nor writes an EMG data line: its output is
absent, not emitted as zero. -/
theorem no_output_before_calibration (ins : List (Bool × ℚ × ℚ × ℚ × ℚ)) (i : ℕ)
    (hi : i < ((runCycles sysInit ins).2).length)
    (hcal : (runCycles sysInit (ins.take i)).1.is_calibrated = false) :
    (((runCycles sysInit ins).2).get ⟨i, hi⟩).thresholdApplied = false ∧
    (((runCycles sysInit ins).2).get ⟨i, hi⟩).emg = none :=
  runCycles_gate_aux ins sysInit i hi hcal

theorem no_output_before_calibration_witness :
    (((runCycles sysInit [(false, 0, 0, 0, 0)]).2).get
        ⟨0, by decide⟩).thresholdApplied = false ∧
    (((runCycles sysInit [(false, 0, 0, 0, 0)]).2).get ⟨0, by decide⟩).emg = none :=
  no_output_before_calibration [(false, 0, 0, 0, 0)] 0 (by decide) rfl

/-- Well-formedness of the four envelope channels of the system state. -/
def SysEnvInv (st : SysState) : Prop :=
  EnvInv BUFFER_SIZE st.envT ∧ EnvInv BUFFER_SIZE st.envY ∧
    EnvInv BUFFER_SIZE st.envP ∧ EnvInv BUFFER_SIZE st.envR

lemma sysInit_envInv : SysEnvInv sysInit := by
  have h := envInit_inv BUFFER_SIZE (by norm_num [BUFFER_SIZE])
  exact ⟨h, h, h, h⟩

lemma rectify_nonneg (x : ℚ) : 0 ≤ rectify x :=
  Int.floor_nonneg.mpr (abs_nonneg x)

lemma loopCycle_env_fields (st : SysState) (qd : Bool) (a b c d : ℚ) :
    ((loopCycle st qd a b c d).1.envT =
        (getThrottleEnvelope st.envT (rectify (EMGFilter_Throttle st.filtT a).2)).1 ∧
      (loopCycle st qd a b c d).1.envY =
        (getYawEnvelope st.envY (rectify (EMGFilter_Yaw st.filtY b).2)).1 ∧
      (loopCycle st qd a b c d).1.envP =
        (getPitchEnvelope st.envP (rectify (EMGFilter_Pitch st.filtP c).2)).1 ∧
      (loopCycle st qd a b c d).1.envR =
        (getRollEnvelope st.envR (rectify (EMGFilter_Roll st.filtR d).2)).1) ∧
    (loopCycle st qd a b c d).2.env =
      ((getThrottleEnvelope st.envT (rectify (EMGFilter_Throttle st.filtT a).2)).2 * 10,
        (getYawEnvelope st.envY (rectify (EMGFilter_Yaw st.filtY b).2)).2 * 10,
        (getPitchEnvelope st.envP (rectify (EMGFilter_Pitch st.filtP c).2)).2 * 10,
        (getRollEnvelope st.envR (rectify (EMGFilter_Roll st.filtR d).2)).2 * 10) := by
  cases hcal : st.is_calibrated
  · refine ⟨⟨?_, ?_, ?_, ?_⟩, ?_⟩ <;>
      simp [loopCycle, hcal, updateCalibration] <;> split_ifs <;> rfl
  · refine ⟨⟨?_, ?_, ?_, ?_⟩, ?_⟩ <;>
      simp [loopCycle, hcal, updateBaselines, updatePeakTracking]

lemma loopCycle_envInv (st : SysState) (qd : Bool) (a b c d : ℚ) (h : SysEnvInv st) :
    SysEnvInv (loopCycle st qd a b c d).1 ∧
    (0 ≤ (loopCycle st qd a b c d).2.env.1 ∧
      0 ≤ (loopCycle st qd a b c d).2.env.2.1 ∧
      0 ≤ (loopCycle st qd a b c d).2.env.2.2.1 ∧
      0 ≤ (loopCycle st qd a b c d).2.env.2.2.2) := by
  obtain ⟨hT, hY, hP, hR⟩ := h
  have hBpos : 0 < BUFFER_SIZE := by norm_num [BUFFER_SIZE]
  have h2 : (0 : ℚ) ≤ 2 := by norm_num
  obtain ⟨hT1, hT2⟩ := envPush_inv BUFFER_SIZE 2 hBpos h2 st.envT
    (rectify (EMGFilter_Throttle st.filtT a).2) hT (rectify_nonneg _)
  obtain ⟨hY1, hY2⟩ := envPush_inv BUFFER_SIZE 2 hBpos h2 st.envY
    (rectify (EMGFilter_Yaw st.filtY b).2) hY (rectify_nonneg _)
  obtain ⟨hP1, hP2⟩ := envPush_inv BUFFER_SIZE 2 hBpos h2 st.envP
    (rectify (EMGFilter_Pitch st.filtP c).2) hP (rectify_nonneg _)
  obtain ⟨hR1, hR2⟩ := envPush_inv BUFFER_SIZE 2 hBpos h2 st.envR
    (rectify (EMGFilter_Roll st.filtR d).2) hR (rectify_nonneg _)
  obtain ⟨⟨e1, e2, e3, e4⟩, henv⟩ := loopCycle_env_fields st qd a b c d
  refine ⟨⟨?_, ?_, ?_, ?_⟩, ?_⟩
  · rw [e1]
    exact hT1
  · rw [e2]
    exact hY1
  · rw [e3]
    exact hP1
  · rw [e4]
    exact hR1
  · rw [henv]
    exact ⟨mul_nonneg hT2 (by norm_num), mul_nonneg hY2 (by norm_num),
      mul_nonneg hP2 (by norm_num), mul_nonneg hR2 (by norm_num)⟩

lemma runCycles_envInv :
    ∀ (ins : List (Bool × ℚ × ℚ × ℚ × ℚ)) (st : SysState), SysEnvInv st →
      ∀ o ∈ (runCycles st ins).2,
        0 ≤ o.env.1 ∧ 0 ≤ o.env.2.1 ∧ 0 ≤ o.env.2.2.1 ∧ 0 ≤ o.env.2.2.2 := by
  intro ins
  induction ins with
  | nil =>
    intro st h o ho
    simp [runCycles] at ho
  | cons x tl ih =>
    intro st h o ho
    obtain ⟨hinv2, hnn⟩ := loopCycle_envInv st x.1 x.2.1 x.2.2.1 x.2.2.2.1 x.2.2.2.2 h
    have hcons : (runCycles st (x :: tl)).2 =
        (loopCycle st x.1 x.2.1 x.2.2.1 x.2.2.2.1 x.2.2.2.2).2 ::
          (runCycles (loopCycle st x.1 x.2.1 x.2.2.1 x.2.2.2.1 x.2.2.2.2).1 tl).2 := rfl
    rw [hcons] at ho
    rcases List.mem_cons.mp ho with h1 | h1
    · rw [h1]
      exact hnn
    · exact ih _ hinv2 o h1

/-- C5: for every raw input sequence, each conditioning cycle's
amplified envelope value is nonnegative on all four channels - the
pipeline pushes rectified (absolute, truncated) filtered samples into a
zero-initialized buffer, so the running mean times the positive gains
stays nonnegative. -/
theorem envelope_nonneg (ins : List (Bool × ℚ × ℚ × ℚ × ℚ)) (o : CycleOut)
    (ho : o ∈ (runCycles sysInit ins).2) :
    0 ≤ o.env.1 ∧ 0 ≤ o.env.2.1 ∧ 0 ≤ o.env.2.2.1 ∧ 0 ≤ o.env.2.2.2 :=
  runCycles_envInv ins sysInit sysInit_envInv o ho

theorem envelope_nonneg_witness :
    (loopCycle sysInit false 0 0 0 0).2 ∈ (runCycles sysInit [(false, 0, 0, 0, 0)]).2 ∧
    (0 ≤ (loopCycle sysInit false 0 0 0 0).2.env.1 ∧
      0 ≤ (loopCycle sysInit false 0 0 0 0).2.env.2.1 ∧
      0 ≤ (loopCycle sysInit false 0 0 0 0).2.env.2.2.1 ∧
      0 ≤ (loopCycle sysInit false 0 0 0 0).2.env.2.2.2) :=
  ⟨List.Mem.head _,
    envelope_nonneg [(false, 0, 0, 0, 0)] (loopCycle sysInit false 0 0 0 0).2
      (List.Mem.head _)⟩
